import Mathlib

/-!
# LareC — Laptop Recommendation frontend and decision engine, verified model

Shallow embedding of the LareC repository:
* the decision-engine filter and weighted scorer (the engine itself is not
  part of the checked-in sources; those two components are modelled from the
  spec, as marked in their doc comments),
* the UI state module `js/state.js` (with an explicit heap to capture the
  copy-on-read getters),
* the questionnaire orchestrator `js/main.js` together with the widget/answer
  layer of `js/uiController.js` and the question table of `js/questions.js`.
Theorems at the end settle the listed behavioural claims.
-/

namespace LareC

/-! ## Engine data model (spec §3) -/

/-- One catalog entry, after dataset cleaning (spec §3 `LaptopRecord`). -/
structure LaptopRecord where
  brand : String
  model : String
  processor : String
  cores : Nat
  threads : Nat
  ramGB : Nat
  ssdGB : Nat
  hddGB : Nat
  os : String
  graphics : String
  screenSize : ℚ
  price : ℚ
deriving DecidableEq, Repr

/-- Hard constraints of a request (spec §3 `HardConstraints`): absent optional
fields arrive with their defaults (`os = "any"`, minima `0`). -/
structure HardConstraints where
  budget : ℚ
  os : String := "any"
  minRam : Nat := 0
  minStorage : Nat := 0
deriving DecidableEq, Repr

/-- Total storage, computed as `ssd + hdd` (spec §3, §4.2). -/
def LaptopRecord.totalStorageGB (r : LaptopRecord) : Nat :=
  r.ssdGB + r.hddGB

/-- Modelled from the spec: `decision_engine.py` is not among the checked-in
sources. Spec §4.1 Constraint Filter — a record survives iff its price is
within budget, its OS matches unless the constraint is `"any"`, and (when the
minima are positive) its RAM and total storage reach them. -/
def satisfiesConstraints (hc : HardConstraints) (r : LaptopRecord) : Bool :=
  decide (r.price ≤ hc.budget) &&
  (hc.os == "any" || r.os == hc.os) &&
  (hc.minRam == 0 || decide (hc.minRam ≤ r.ramGB)) &&
  (hc.minStorage == 0 || decide (hc.minStorage ≤ r.totalStorageGB))

/-- Modelled from the spec (§4.1): the filter keeps the surviving records in
catalog order. -/
def filterCatalog (catalog : List LaptopRecord) (hc : HardConstraints) :
    List LaptopRecord :=
  catalog.filter (satisfiesConstraints hc)

/-! ## Field normalizer and weighted scorer (spec §4.2, §4.3) -/

/-- The five scorable fields of spec §4.2. -/
inductive ScorableField where
  | cpuPerformance
  | ramGB
  | totalStorageGB
  | ssdGB
  | screenSize
deriving DecidableEq, Repr

/-- Modelled from the spec (§4.2): `cpu_performance` is a deterministic value
strictly increasing in both core count and thread count; the exact weighting
is an implementation choice, taken here as the sum. -/
def cpuPerformance (r : LaptopRecord) : ℚ :=
  (r.cores : ℚ) + (r.threads : ℚ)

/-- Raw value of a scorable field for one record (spec §4.2). -/
def fieldValue : ScorableField → LaptopRecord → ℚ
  | .cpuPerformance, r => cpuPerformance r
  | .ramGB, r => (r.ramGB : ℚ)
  | .totalStorageGB, r => (r.totalStorageGB : ℚ)
  | .ssdGB, r => (r.ssdGB : ℚ)
  | .screenSize, r => r.screenSize

/-- The fixed order of the scorable fields. -/
def scorableFields : List ScorableField :=
  [.cpuPerformance, .ramGB, .totalStorageGB, .ssdGB, .screenSize]

/-- Minimum of a list of rationals (`0` on the empty list, which the
short-circuiting pipeline never passes in). -/
def vmin : List ℚ → ℚ
  | [] => 0
  | x :: xs => xs.foldl min x

/-- Maximum of a list of rationals. -/
def vmax : List ℚ → ℚ
  | [] => 0
  | x :: xs => xs.foldl max x

/-- Modelled from the spec (§4.2): linear min–max scaling of a record's field
value against the filtered subset, with the neutral value `1/2` when every
surviving record agrees on the field. -/
def normalizeField (subset : List LaptopRecord) (f : ScorableField)
    (r : LaptopRecord) : ℚ :=
  if vmax (subset.map (fieldValue f)) = vmin (subset.map (fieldValue f))
  then 1/2
  else (fieldValue f r - vmin (subset.map (fieldValue f))) /
       (vmax (subset.map (fieldValue f)) - vmin (subset.map (fieldValue f)))

/-- Soft preferences of a request (spec §3): any subset of the five scorable
fields may carry a user weight; an absent field means the question was
skipped. -/
structure SoftPreferences where
  cpuPerformance : Option Nat := none
  ramGB : Option Nat := none
  totalStorageGB : Option Nat := none
  ssdGB : Option Nat := none
  screenSize : Option Nat := none
deriving DecidableEq, Repr

/-- Look up the user weight stored for a scorable field. -/
def SoftPreferences.get (p : SoftPreferences) : ScorableField → Option Nat
  | .cpuPerformance => p.cpuPerformance
  | .ramGB => p.ramGB
  | .totalStorageGB => p.totalStorageGB
  | .ssdGB => p.ssdGB
  | .screenSize => p.screenSize

/-- Every weight present in the mapping is one of `1`, `2`, `3` (spec §3). -/
def ValidPrefs (p : SoftPreferences) : Prop :=
  ∀ f w, p.get f = some w → w = 1 ∨ w = 2 ∨ w = 3

/-- Modelled from the spec (§4.3): the effective weight of a field is the
user-supplied one, or the neutral default `1` when the field was skipped. -/
def effectiveWeight (p : SoftPreferences) (f : ScorableField) : ℚ :=
  (((p.get f).getD 1 : Nat) : ℚ)

/-- Sum of the effective weights of the five scorable fields. -/
def totalWeight (p : SoftPreferences) : ℚ :=
  (scorableFields.map (effectiveWeight p)).sum

/-- Weighted sum of the normalized field values of one record. -/
def weightedSum (subset : List LaptopRecord) (p : SoftPreferences)
    (r : LaptopRecord) : ℚ :=
  (scorableFields.map
    (fun f => effectiveWeight p f * normalizeField subset f r)).sum

/-- Modelled from the spec (§4.3): the composite score
`100 * (Σ w_f * n_f) / (Σ w_f)`. -/
def compositeScore (subset : List LaptopRecord) (p : SoftPreferences)
    (r : LaptopRecord) : ℚ :=
  100 * weightedSum subset p r / totalWeight p

/-! ## JS values and association-list objects -/

/-- A primitive JS value as stored in the questionnaire state: the answers are
numbers or strings. -/
inductive Value where
  | num (x : ℚ)
  | str (s : String)
deriving DecidableEq, Repr

/-- JS object property assignment `m[k] = v` on an object modelled as an
association list: overwrite the binding if the key exists, append otherwise. -/
def setKey {α : Type} (m : List (String × α)) (k : String) (v : α) :
    List (String × α) :=
  match m with
  | [] => [(k, v)]
  | (k', v') :: rest =>
      if k' = k then (k, v) :: rest else (k', v') :: setKey rest k v

/-! ## `js/state.js` with an explicit heap

The state module holds references to four mutable JS objects (two answer
maps, the skipped-ids array, the last-results array).  To reason about the
copy-on-read getters the heap is explicit: a list of cells addressed by
index, where allocation appends a fresh cell.  Getters allocate a shallow
copy of the internal cell and hand the fresh address to the caller;
`clientWrite` is the caller mutating an object it was handed. -/

/-- A heap cell: one JS object (property map) or array. -/
inductive JVal where
  | obj (entries : List (String × Value))
  | arr (elems : List Value)
deriving DecidableEq, Repr

/-- The fields of the `_state` object of `js/state.js`: the raw index number
and references (addresses) to the four container objects. -/
structure ModuleState where
  currentQuestionIndex : Int
  hardAddr : Nat
  weightsAddr : Nat
  skippedAddr : Nat
  resultsAddr : Nat
deriving DecidableEq, Repr

/-- The whole aliasing picture: the heap, the module's `_state`, and the
addresses of every value a getter has returned to the caller so far. -/
structure World where
  heap : List JVal
  st : ModuleState
  returned : List Nat
deriving DecidableEq, Repr

/-- The initial `_state` of `js/state.js`: index `0`, two empty objects, two
empty arrays. -/
def initWorld : World :=
  { heap := [JVal.obj [], JVal.obj [], JVal.arr [], JVal.arr []]
    st := { currentQuestionIndex := 0, hardAddr := 0, weightsAddr := 1
            skippedAddr := 2, resultsAddr := 3 }
    returned := [] }

/-- One call to the exported API of `js/state.js`, plus `clientWrite`: the
caller overwriting the contents of the `i`-th value a getter returned. -/
inductive StateOp where
  | incrementIndex
  | decrementIndex
  | setHardConstraint (id : String) (v : Value)
  | setWeight (field : String) (w : Value)
  | markSkipped (id : String)
  | unmarkSkipped (id : String)
  | setLastResults (rs : List Value)
  | resetState
  | getHardConstraints
  | getWeights
  | getSkipped
  | getLastResults
  | clientWrite (i : Nat) (v : JVal)
deriving DecidableEq, Repr

/-- Update the object cell at `a` through `f` (no-op on a dangling or
non-object address). -/
def updObjCell (h : List JVal) (a : Nat)
    (f : List (String × Value) → List (String × Value)) : List JVal :=
  match h[a]? with
  | some (JVal.obj m) => h.set a (JVal.obj (f m))
  | _ => h

/-- `markSkipped`: push onto the array cell at `a` unless already present
(no-op on a dangling or non-array address). -/
def pushUnique (h : List JVal) (a : Nat) (x : Value) : List JVal :=
  match h[a]? with
  | some (JVal.arr xs) =>
      if x ∈ xs then h else h.set a (JVal.arr (xs ++ [x]))
  | _ => h

/-- Shallow copy of the cell at `a`, as a value to be placed in a fresh
cell. -/
def cellCopy (h : List JVal) (a : Nat) : JVal :=
  (h[a]?).getD (JVal.obj [])

/-- Getter: allocate a shallow copy of the internal cell at `a` and hand its
fresh address to the caller. -/
def getCopy (w : World) (a : Nat) : World :=
  { w with heap := w.heap ++ [cellCopy w.heap a]
           returned := w.returned ++ [w.heap.length] }

/-- One step of the `js/state.js` module, translated operation by
operation. -/
def stepOp (w : World) (op : StateOp) : World :=
  match op with
  | .incrementIndex =>
      { w with st := { w.st with
          currentQuestionIndex := w.st.currentQuestionIndex + 1 } }
  | .decrementIndex =>
      if w.st.currentQuestionIndex > 0 then
        { w with st := { w.st with
            currentQuestionIndex := w.st.currentQuestionIndex - 1 } }
      else w
  | .setHardConstraint id v =>
      { w with heap := updObjCell w.heap w.st.hardAddr (fun m => setKey m id v) }
  | .setWeight field wt =>
      { w with heap := updObjCell w.heap w.st.weightsAddr (fun m => setKey m field wt) }
  | .markSkipped id =>
      { w with heap := pushUnique w.heap w.st.skippedAddr (Value.str id) }
  | .unmarkSkipped id =>
      -- `_state.skipped = _state.skipped.filter(x => x !== id)` allocates a
      -- new array and repoints the field at it.
      match w.heap[w.st.skippedAddr]? with
      | some (JVal.arr xs) =>
          { w with heap := w.heap ++ [JVal.arr (xs.filter (· ≠ Value.str id))]
                   st := { w.st with skippedAddr := w.heap.length } }
      | _ => w
  | .setLastResults rs =>
      -- `_state.lastResults = results` repoints the field at the array the
      -- caller passed in (modelled as a fresh cell holding its elements).
      { w with heap := w.heap ++ [JVal.arr rs]
               st := { w.st with resultsAddr := w.heap.length } }
  | .resetState =>
      -- `_state = { ... }` builds four fresh containers.
      { w with heap := w.heap ++ [JVal.obj [], JVal.obj [], JVal.arr [], JVal.arr []]
               st := { currentQuestionIndex := 0
                       hardAddr := w.heap.length
                       weightsAddr := w.heap.length + 1
                       skippedAddr := w.heap.length + 2
                       resultsAddr := w.heap.length + 3 } }
  | .getHardConstraints => getCopy w w.st.hardAddr
  | .getWeights => getCopy w w.st.weightsAddr
  | .getSkipped => getCopy w w.st.skippedAddr
  | .getLastResults => getCopy w w.st.resultsAddr
  | .clientWrite i v =>
      match w.returned[i]? with
      | some a => { w with heap := w.heap.set a v }
      | none => w

/-- Run a sequence of state-module operations from the initial state. -/
def runOps (ops : List StateOp) : World :=
  ops.foldl stepOp initWorld

/-- `hard` questions feed `hard_constraints`, `soft` ones feed
`soft_preferences`. -/
inductive QType where
  | hard
  | soft
deriving DecidableEq, Repr

/-- The widget kind of a question (`inputType` in `questions.js`). -/
inductive InputType where
  | num
  | select
  | importance
deriving DecidableEq, Repr

/-- One entry of the `QUESTIONS` table.  `options` holds the select option
values as the DOM carries them (`String(o.value)`); `field` is the engine
field name of a soft question. -/
structure Question where
  id : String
  qtype : QType
  inputType : InputType
  field : String := ""
  options : List String := []
  required : Bool := false
deriving DecidableEq, Repr

/-- The `QUESTIONS` array of `js/questions.js`, in order. -/
def QUESTIONS : List Question :=
  [ { id := "budget", qtype := .hard, inputType := .num, required := true },
    { id := "os", qtype := .hard, inputType := .select,
      options := ["any", "Windows", "DOS", "Ubuntu"] },
    { id := "min_ram", qtype := .hard, inputType := .select,
      options := ["4", "8", "16", "32"] },
    { id := "min_storage", qtype := .hard, inputType := .select,
      options := ["0", "128", "256", "512", "1024"] },
    { id := "weight_performance", qtype := .soft, inputType := .importance,
      field := "cpu_performance" },
    { id := "weight_ram", qtype := .soft, inputType := .importance,
      field := "ram(GB)" },
    { id := "weight_storage", qtype := .soft, inputType := .importance,
      field := "total_storage_GB" },
    { id := "weight_ssd", qtype := .soft, inputType := .importance,
      field := "ssd(GB)" },
    { id := "weight_display", qtype := .soft, inputType := .importance,
      field := "screen_size(inches)" } ]

/-- `IMPORTANCE_MAP` of `js/questions.js`: High → 3, Medium → 2, Low → 1,
anything else is absent. -/
def importanceMap (t : String) : Option Nat :=
  if t = "High" then some 3
  else if t = "Medium" then some 2
  else if t = "Low" then some 1
  else none

/-! ## `js/main.js` — the questionnaire orchestrator

The answers a handler can see are the values `readCurrentAnswer` in
`js/uiController.js` can produce for the current widget; the state is the
value view of `js/state.js` as `main.js` drives it. -/

/-- What `readCurrentAnswer` returns: a parsed number, a widget string, or
`null`. -/
inductive Ans where
  | num (x : ℚ)
  | str (s : String)
  | null
deriving DecidableEq, Repr

/-- Decimal digit accumulator over a character list. -/
def digitsToNat : List Char → Nat → Nat
  | [], acc => acc
  | c :: cs, acc => digitsToNat cs (acc * 10 + (c.toNat - 48))

/-- `Number(x)` of JS on the values that occur here: numbers stay themselves,
digit strings parse, anything else is collapsed to `0` (standing in for the
`NaN` that never reaches a comparison in this flow). -/
def jsNumber : Ans → ℚ
  | .num x => x
  | .str s =>
      if s ≠ "" ∧ s.data.all Char.isDigit
      then ((digitsToNat s.data 0 : Nat) : ℚ) else 0
  | .null => 0

/-- A JS value as stored into the state maps by `_saveAnswer`. -/
def valueOfAns : Ans → Value
  | .num x => Value.num x
  | .str s => Value.str s
  | .null => Value.str ""

/-- The codomain of `readCurrentAnswer` for one widget (from the widget
builders and `readCurrentAnswer` of `js/uiController.js`): a number input
yields a parsed number or `null`; a select yields one of its option values or
`null` (the blank placeholder reads as `null`); an importance group yields
one of High/Medium/Low or `null`. -/
def readableAnswer (q : Question) (a : Ans) : Bool :=
  match q.inputType, a with
  | _, .null => true
  | .num, .num _ => true
  | .select, .str s => decide (s ∈ q.options)
  | .importance, .str s => decide (s ∈ (["High", "Medium", "Low"] : List String))
  | _, _ => false

/-- The validation of `_onContinue`: empty answers are rejected, and the
budget answer must be a number strictly greater than zero. -/
def answerOk (q : Question) (a : Ans) : Bool :=
  match a with
  | .null => false
  | .str t => decide (t ≠ "") && decide (q.id ≠ "budget")
  | .num x => decide (q.id ≠ "budget") || decide (0 < x)

/-- Value view of the `js/state.js` module as `js/main.js` drives it. -/
structure UIState where
  idx : Int
  hard : List (String × Value)
  weights : List (String × Nat)
  skipped : List String
deriving DecidableEq, Repr

/-- The initial `_state`. -/
def initUI : UIState :=
  { idx := 0, hard := [], weights := [], skipped := [] }

/-- `QUESTIONS[idx]` under JS indexing: out-of-range (also negative) indices
give `undefined`. -/
def qAt (i : Int) : Option Question :=
  if i < 0 then none else QUESTIONS[i.toNat]?

/-- The hard-question ids that `_saveAnswer` coerces with `Number(...)`. -/
def numericHardFields : List String := ["min_ram", "min_storage"]

/-- The value `_saveAnswer` stores for a hard answer: `Number(...)` on the
number input and on the numeric select ids, the raw answer otherwise. -/
def hardVal (q : Question) (a : Ans) : Value :=
  if q.inputType = InputType.num ∨ q.id ∈ numericHardFields
  then Value.num (jsNumber a) else valueOfAns a

/-- `_saveAnswer` of `js/main.js`: a `null` answer is ignored, hard answers
land in `hardConstraints` (numeric fields coerced), soft answers land in
`weights` through `IMPORTANCE_MAP` (an unmapped level stores nothing). -/
def saveAnswer (q : Question) (a : Ans) (s : UIState) : UIState :=
  match a, q.qtype with
  | .null, _ => s
  | a, .hard => { s with hard := setKey s.hard q.id (hardVal q a) }
  | .str t, .soft =>
      match importanceMap t with
      | some w => { s with weights := setKey s.weights q.field w }
      | none => s
  | .num _, .soft => s

/-- `unmarkSkipped`. -/
def unmark (s : UIState) (id : String) : UIState :=
  { s with skipped := s.skipped.filter (· ≠ id) }

/-- `markSkipped`. -/
def mark (s : UIState) (id : String) : UIState :=
  { s with skipped := if id ∈ s.skipped then s.skipped else s.skipped ++ [id] }

/-- The JSON payload `_submit` posts to `/api/recommend`. -/
structure Payload where
  hardConstraints : List (String × Value)
  softPreferences : List (String × Nat)
deriving DecidableEq, Repr

/-- `_submit` collects the current answers into the payload. -/
def mkPayload (s : UIState) : Payload :=
  { hardConstraints := s.hard, softPreferences := s.weights }

/-- A user interaction the wired buttons can deliver. -/
inductive UIEvent where
  | continueClick (a : Ans)
  | skipClick
  | backClick
  | restartClick
deriving DecidableEq, Repr

/-- One button click of `js/main.js`, returning the new state and the payload
submitted by this click, if any.  The `readableAnswer` guard restricts
`continueClick` to the answers `readCurrentAnswer` can actually produce for
the current widget, and `skipClick` is unavailable on a required question
because `renderQuestion` hides the Skip button there. -/
def uiStep (s : UIState) (e : UIEvent) : UIState × Option Payload :=
  match e with
  | .continueClick a =>
      match qAt s.idx with
      | none => (s, none)
      | some q =>
          if readableAnswer q a && answerOk q a then
            let s' := unmark (saveAnswer q a s) q.id
            if s.idx ≥ (QUESTIONS.length : Int) - 1 then (s', some (mkPayload s'))
            else ({ s' with idx := s.idx + 1 }, none)
          else (s, none)
  | .skipClick =>
      match qAt s.idx with
      | none => (s, none)
      | some q =>
          if q.required then (s, none)
          else
            let s' := mark s q.id
            if s.idx ≥ (QUESTIONS.length : Int) - 1 then (s', some (mkPayload s'))
            else ({ s' with idx := s.idx + 1 }, none)
  | .backClick =>
      ({ s with idx := if s.idx > 0 then s.idx - 1 else s.idx }, none)
  | .restartClick => (initUI, none)

/-- Run a sequence of clicks from the initial state. -/
def runUI (evs : List UIEvent) : UIState :=
  evs.foldl (fun s e => (uiStep s e).1) initUI

/-- Whether this click, fired in this state, answers the soft question for
engine field `f`: a Continue click that passes validation on a soft question
whose `field` is `f` with an importance level `IMPORTANCE_MAP` knows. -/
def savesField (s : UIState) (e : UIEvent) (f : String) : Bool :=
  match e with
  | .continueClick a =>
      match qAt s.idx with
      | some q =>
          readableAnswer q a && answerOk q a && (q.qtype == QType.soft) &&
          (q.field == f) &&
          (match a with
           | .str t => (importanceMap t).isSome
           | _ => false)
      | none => false
  | _ => false

/-- Whether some click of the remaining run, started in state `s`, answers
the soft question for field `f`. -/
def everSaves (f : String) : List UIEvent → UIState → Bool
  | [], _ => false
  | e :: evs, s => savesField s e f || everSaves f evs (uiStep s e).1

/-- Whether some Continue click of the run answered the soft question for
field `f`. -/
def fieldAnswered (f : String) (evs : List UIEvent) : Bool :=
  everSaves f evs initUI

/-- The invariant maintained across every button click: once past the first
question the budget is stored as a positive number, every stored weight came
out of `IMPORTANCE_MAP`, and every stored hard constraint conforms to the
request contract. -/
def StateInv (s : UIState) : Prop :=
  (0 < s.idx → ∃ x, List.lookup "budget" s.hard = some (Value.num x) ∧ 0 < x) ∧
  (∀ f w, List.lookup f s.weights = some w → w = 1 ∨ w = 2 ∨ w = 3) ∧
  (∀ k v, List.lookup k s.hard = some v →
     ((k = "budget" ∨ k = "min_ram" ∨ k = "min_storage") →
        ∃ x, v = Value.num x) ∧
     (k = "os" → v = Value.str "any" ∨ v = Value.str "Windows" ∨
        v = Value.str "DOS" ∨ v = Value.str "Ubuntu"))

/-! ## Results rendering and the response path of `_submit` -/

/-- One entry of the backend's `results` array (response contract). -/
structure ResultRecord where
  rank : Nat
  score : ℚ
  rankLabel : String
  brand : String
  model : String
  processor : String
  ramGB : Nat
  ssdGB : Nat
  hddGB : Nat
  os : String
  screenSize : ℚ
  price : ℚ
  explanation : String
  strengths : List String
  tradeoffs : List String
deriving DecidableEq, Repr

/-- What `renderResults` leaves in the results list container. -/
inductive RenderedList where
  | noResultsMessage (title message : String)
  | resultCards (cards : List ResultRecord)
deriving DecidableEq, Repr

/-- `renderResults` of `js/uiController.js`: a missing or empty array renders
the no-results card with its advice text; otherwise one card per record in
order. -/
def renderResults (results : Option (List ResultRecord)) : RenderedList :=
  match results with
  | none =>
      RenderedList.noResultsMessage "No laptops matched your criteria"
        "Your hard constraints may be too strict. Try relaxing your budget, minimum RAM, or storage requirements."
  | some [] =>
      RenderedList.noResultsMessage "No laptops matched your criteria"
        "Your hard constraints may be too strict. Try relaxing your budget, minimum RAM, or storage requirements."
  | some rs => RenderedList.resultCards rs

/-- The outcome of the `fetch` in `_submit`, as far as the handler can
distinguish: a 2xx response with a parsed `results` field (possibly absent),
a non-2xx response, or a thrown network/parse error. -/
inductive FetchResult where
  | ok (results : Option (List ResultRecord))
  | httpError (status : Nat) (detail : String)
  | networkFailure (msg : String)
deriving DecidableEq, Repr

/-- What the user ends up seeing after `_submit` handles the response. -/
inductive SubmitOutcome where
  | rendered (list : RenderedList)
  | fatalError (msg : String)
deriving DecidableEq, Repr

/-- Whether the catch-branch (back to questionnaire, fatal error box) was
taken. -/
def SubmitOutcome.isFatal : SubmitOutcome → Bool
  | .rendered _ => false
  | .fatalError _ => true

/-- The response handling of `_submit` in `js/main.js`: a non-ok status or a
thrown error reaches the catch-branch; an ok response renders
`renderResults(results || [])`. -/
def handleResponse (fr : FetchResult) : SubmitOutcome :=
  match fr with
  | .ok results => SubmitOutcome.rendered (renderResults (some (results.getD [])))
  | .httpError status detail =>
      SubmitOutcome.fatalError
        (if detail = "" then "Backend returned status " ++ toString status
         else detail)
  | .networkFailure msg => SubmitOutcome.fatalError msg

/-! ## `_esc` of `js/uiController.js` -/

/-- `String.prototype.replace` with a global single-character pattern:
every occurrence of `c` is replaced by `r`. -/
def replaceAllChars : List Char → Char → List Char → List Char
  | [], _, _ => []
  | x :: xs, c, r =>
      if x = c then r ++ replaceAllChars xs c r
      else x :: replaceAllChars xs c r

/-- The five chained replacements of `_esc`, ampersand first. -/
def escChain (s : List Char) : List Char :=
  replaceAllChars
    (replaceAllChars
      (replaceAllChars
        (replaceAllChars
          (replaceAllChars s '&' "&amp;".data)
          '<' "&lt;".data)
        '>' "&gt;".data)
      (Char.ofNat 34) "&quot;".data)
    (Char.ofNat 39) "&#39;".data

/-- `_esc`: the empty string on `null`/`undefined`, the entity-escaped text
otherwise. -/
def jsEsc : Option String → String
  | none => ""
  | some s => String.mk (escChain s.data)

/-! ## Concrete inputs used to exercise the theorems -/

/-- A sample catalog entry (shaped like the cleaned dataset's first row). -/
def sampleRecord : LaptopRecord :=
  { brand := "Lenovo", model := "V15 ITL G2", processor := "11th Gen Core i3"
    cores := 2, threads := 4, ramGB := 8, ssdGB := 512, hddGB := 0
    os := "Windows", graphics := "Intel Integrated UHD"
    screenSize := 15, price := 33921 }

/-- Sample hard constraints satisfied by `sampleRecord`. -/
def sampleHC : HardConstraints :=
  { budget := 50000, os := "Windows", minRam := 8, minStorage := 256 }

/-- Sample soft preferences with two answered fields and three skipped. -/
def samplePrefs : SoftPreferences :=
  { cpuPerformance := some 3, ramGB := some 2, ssdGB := some 1 }

/-- A complete questionnaire run: budget, OS, RAM and storage minima, then
the five importance answers High/Medium/Low/High (the fifth is the submitting
click). -/
def evsFullRun : List UIEvent :=
  [UIEvent.continueClick (Ans.num 50000), UIEvent.continueClick (Ans.str "any"),
   UIEvent.continueClick (Ans.str "4"), UIEvent.continueClick (Ans.str "0"),
   UIEvent.continueClick (Ans.str "High"),
   UIEvent.continueClick (Ans.str "Medium"),
   UIEvent.continueClick (Ans.str "Low"),
   UIEvent.continueClick (Ans.str "High")]

/-- The payload the run above submits on the final Continue. -/
def payloadFullRun : Payload :=
  { hardConstraints :=
      [("budget", Value.num 50000), ("os", Value.str "any"),
       ("min_ram", Value.num 4), ("min_storage", Value.num 0)]
    softPreferences :=
      [("cpu_performance", 3), ("ram(GB)", 2), ("total_storage_GB", 1),
       ("ssd(GB)", 3), ("screen_size(inches)", 1)] }

/-- A second full run used by the C5 witness: same answers, Ubuntu OS. -/
def evsRunUbuntu : List UIEvent :=
  [UIEvent.continueClick (Ans.num 60000),
   UIEvent.continueClick (Ans.str "Ubuntu"),
   UIEvent.continueClick (Ans.str "8"), UIEvent.continueClick (Ans.str "128"),
   UIEvent.continueClick (Ans.str "Low"), UIEvent.continueClick (Ans.str "Low"),
   UIEvent.continueClick (Ans.str "Low"), UIEvent.continueClick (Ans.str "Low")]

/-- The payload `evsRunUbuntu` submits on the final Continue. -/
def payloadUbuntu : Payload :=
  { hardConstraints :=
      [("budget", Value.num 60000), ("os", Value.str "Ubuntu"),
       ("min_ram", Value.num 8), ("min_storage", Value.num 128)]
    softPreferences :=
      [("cpu_performance", 1), ("ram(GB)", 1), ("total_storage_GB", 1),
       ("ssd(GB)", 1), ("screen_size(inches)", 1)] }

/-- The run refuting the skipped-implies-absent claim: the user answers the
performance question High, goes Back, Skips it, then skips through to the
end; the final Skip submits. -/
def evsBackSkip : List UIEvent :=
  [UIEvent.continueClick (Ans.num 50000), UIEvent.continueClick (Ans.str "any"),
   UIEvent.continueClick (Ans.str "4"), UIEvent.continueClick (Ans.str "0"),
   UIEvent.continueClick (Ans.str "High"), UIEvent.backClick,
   UIEvent.skipClick, UIEvent.skipClick, UIEvent.skipClick, UIEvent.skipClick]

/-- The payload the final Skip of `evsBackSkip` submits: the skipped
performance question's field is still present with the weight saved before
the Back click. -/
def payloadBackSkip : Payload :=
  { hardConstraints :=
      [("budget", Value.num 50000), ("os", Value.str "any"),
       ("min_ram", Value.num 4), ("min_storage", Value.num 0)]
    softPreferences := [("cpu_performance", 3)] }

/-! ## Supporting lemmas -/

theorem foldl_min_le_init (xs : List ℚ) (a : ℚ) : xs.foldl min a ≤ a := by
  induction xs generalizing a with
  | nil => exact le_refl a
  | cons x xs ih =>
      exact le_trans (ih (min a x)) (min_le_left a x)

theorem foldl_min_le_of_mem (xs : List ℚ) (a x : ℚ) (h : x ∈ xs) :
    xs.foldl min a ≤ x := by
  induction xs generalizing a with
  | nil => cases h
  | cons y ys ih =>
      rcases List.mem_cons.mp h with rfl | hy
      · exact le_trans (foldl_min_le_init ys (min a x)) (min_le_right a x)
      · exact ih (min a y) hy

theorem init_le_foldl_max (xs : List ℚ) (a : ℚ) : a ≤ xs.foldl max a := by
  induction xs generalizing a with
  | nil => exact le_refl a
  | cons x xs ih =>
      exact le_trans (le_max_left a x) (ih (max a x))

theorem le_foldl_max_of_mem (xs : List ℚ) (a x : ℚ) (h : x ∈ xs) :
    x ≤ xs.foldl max a := by
  induction xs generalizing a with
  | nil => cases h
  | cons y ys ih =>
      rcases List.mem_cons.mp h with rfl | hy
      · exact le_trans (le_max_right a x) (init_le_foldl_max ys (max a x))
      · exact ih (max a y) hy

theorem vmin_le_of_mem {vs : List ℚ} {x : ℚ} (h : x ∈ vs) : vmin vs ≤ x := by
  cases vs with
  | nil => cases h
  | cons y ys =>
      rcases List.mem_cons.mp h with rfl | hy
      · exact foldl_min_le_init ys x
      · exact foldl_min_le_of_mem ys y x hy

theorem le_vmax_of_mem {vs : List ℚ} {x : ℚ} (h : x ∈ vs) : x ≤ vmax vs := by
  cases vs with
  | nil => cases h
  | cons y ys =>
      rcases List.mem_cons.mp h with rfl | hy
      · exact init_le_foldl_max ys x
      · exact le_foldl_max_of_mem ys y x hy

theorem normalizeField_bounds (subset : List LaptopRecord) (f : ScorableField)
    (r : LaptopRecord) (hr : r ∈ subset) :
    0 ≤ normalizeField subset f r ∧ normalizeField subset f r ≤ 1 := by
  have hv : fieldValue f r ∈ subset.map (fieldValue f) :=
    List.mem_map_of_mem (fieldValue f) hr
  have h1 : vmin (subset.map (fieldValue f)) ≤ fieldValue f r :=
    vmin_le_of_mem hv
  have h2 : fieldValue f r ≤ vmax (subset.map (fieldValue f)) :=
    le_vmax_of_mem hv
  unfold normalizeField
  by_cases hc :
      vmax (subset.map (fieldValue f)) = vmin (subset.map (fieldValue f))
  · rw [if_pos hc]
    norm_num
  · rw [if_neg hc]
    have hlt : vmin (subset.map (fieldValue f)) <
        vmax (subset.map (fieldValue f)) :=
      lt_of_le_of_ne (le_trans h1 h2) (fun h => hc h.symm)
    constructor
    · exact div_nonneg (by linarith) (by linarith)
    · rw [div_le_one (by linarith)]
      linarith

theorem one_le_effectiveWeight {p : SoftPreferences} (hp : ValidPrefs p)
    (f : ScorableField) : 1 ≤ effectiveWeight p f := by
  unfold effectiveWeight
  cases hpf : p.get f with
  | none => norm_num
  | some w =>
      rcases hp f w hpf with h | h | h <;> subst h <;> norm_num

theorem totalWeight_pos {p : SoftPreferences} (hp : ValidPrefs p) :
    0 < totalWeight p := by
  have h1 := one_le_effectiveWeight hp ScorableField.cpuPerformance
  have h2 := one_le_effectiveWeight hp ScorableField.ramGB
  have h3 := one_le_effectiveWeight hp ScorableField.totalStorageGB
  have h4 := one_le_effectiveWeight hp ScorableField.ssdGB
  have h5 := one_le_effectiveWeight hp ScorableField.screenSize
  unfold totalWeight scorableFields
  simp only [List.map_cons, List.map_nil, List.sum_cons, List.sum_nil]
  linarith

theorem weightedSum_bounds (subset : List LaptopRecord) (p : SoftPreferences)
    (r : LaptopRecord) (hr : r ∈ subset) (hp : ValidPrefs p) :
    0 ≤ weightedSum subset p r ∧ weightedSum subset p r ≤ totalWeight p := by
  have hterm : ∀ f : ScorableField,
      0 ≤ effectiveWeight p f * normalizeField subset f r ∧
      effectiveWeight p f * normalizeField subset f r ≤ effectiveWeight p f := by
    intro f
    obtain ⟨hn0, hn1⟩ := normalizeField_bounds subset f r hr
    have hw := one_le_effectiveWeight hp f
    constructor
    · exact mul_nonneg (by linarith) hn0
    · exact mul_le_of_le_one_right (by linarith) hn1
  obtain ⟨a0, a1⟩ := hterm ScorableField.cpuPerformance
  obtain ⟨b0, b1⟩ := hterm ScorableField.ramGB
  obtain ⟨c0, c1⟩ := hterm ScorableField.totalStorageGB
  obtain ⟨d0, d1⟩ := hterm ScorableField.ssdGB
  obtain ⟨e0, e1⟩ := hterm ScorableField.screenSize
  unfold weightedSum totalWeight scorableFields
  simp only [List.map_cons, List.map_nil, List.sum_cons, List.sum_nil]
  constructor <;> linarith

theorem compositeScore_bounds (subset : List LaptopRecord)
    (p : SoftPreferences) (r : LaptopRecord) (hr : r ∈ subset)
    (hp : ValidPrefs p) :
    0 ≤ compositeScore subset p r ∧ compositeScore subset p r ≤ 100 := by
  obtain ⟨hs0, hs1⟩ := weightedSum_bounds subset p r hr hp
  have hw := totalWeight_pos hp
  unfold compositeScore
  constructor
  · exact div_nonneg (by linarith) (by linarith)
  · rw [div_le_iff₀ hw]
    linarith

theorem lookup_setKey_self {α : Type} (m : List (String × α)) (k : String)
    (v : α) : List.lookup k (setKey m k v) = some v := by
  induction m with
  | nil => simp [setKey, List.lookup]
  | cons kv rest ih =>
      obtain ⟨k', v'⟩ := kv
      by_cases h : k' = k
      · subst h
        simp [setKey, List.lookup]
      · simp [setKey, h, List.lookup, beq_false_of_ne (Ne.symm h), ih]

theorem lookup_setKey_ne {α : Type} (m : List (String × α)) (k k' : String)
    (v : α) (h : k' ≠ k) :
    List.lookup k' (setKey m k v) = List.lookup k' m := by
  induction m with
  | nil => simp [setKey, List.lookup, beq_false_of_ne h]
  | cons kv rest ih =>
      obtain ⟨k₀, v₀⟩ := kv
      by_cases h₀ : k₀ = k
      · subst h₀
        simp [setKey, List.lookup, beq_false_of_ne h]
      · by_cases h' : k' = k₀
        · subst h'
          simp [setKey, h₀, List.lookup]
        · simp [setKey, h₀, List.lookup, beq_false_of_ne h', ih]

theorem mem_setKey {α : Type} (m : List (String × α)) (k : String) (v : α)
    (e : String × α) (he : e ∈ setKey m k v) : e = (k, v) ∨ e ∈ m := by
  induction m with
  | nil =>
      simp [setKey] at he
      exact Or.inl he
  | cons kv rest ih =>
      obtain ⟨k', v'⟩ := kv
      by_cases h : k' = k
      · simp [setKey, h] at he
        rcases he with he | he
        · exact Or.inl (by simp [he])
        · exact Or.inr (List.mem_cons_of_mem _ he)
      · simp [setKey, h] at he
        rcases he with he | he
        · exact Or.inr (by simp [he])
        · rcases ih he with h' | h'
          · exact Or.inl h'
          · exact Or.inr (List.mem_cons_of_mem _ h')

theorem idx_nonneg_step (w : World) (op : StateOp)
    (h : 0 ≤ w.st.currentQuestionIndex) :
    0 ≤ (stepOp w op).st.currentQuestionIndex := by
  cases op with
  | incrementIndex => simp only [stepOp]; omega
  | decrementIndex =>
      simp only [stepOp]
      split
      · next hgt => simp only; omega
      · exact h
  | setHardConstraint id v => exact h
  | setWeight field wt => exact h
  | markSkipped id => exact h
  | unmarkSkipped id =>
      simp only [stepOp]
      split
      · exact h
      · exact h
  | setLastResults rs => exact h
  | resetState => simp [stepOp]
  | getHardConstraints => exact h
  | getWeights => exact h
  | getSkipped => exact h
  | getLastResults => exact h
  | clientWrite i v =>
      simp only [stepOp]
      split
      · exact h
      · exact h

theorem idx_nonneg_foldl (ops : List StateOp) (w : World)
    (h : 0 ≤ w.st.currentQuestionIndex) :
    0 ≤ (ops.foldl stepOp w).st.currentQuestionIndex := by
  induction ops generalizing w with
  | nil => exact h
  | cons op ops ih => exact ih (stepOp w op) (idx_nonneg_step w op h)

theorem importanceMap_range (t : String) (w : Nat)
    (h : importanceMap t = some w) : w = 1 ∨ w = 2 ∨ w = 3 := by
  unfold importanceMap at h
  split_ifs at h <;> simp_all

theorem lookup_setKey_elim {α : Type} (m : List (String × α)) (k k' : String)
    (v w : α) (h : List.lookup k' (setKey m k v) = some w) :
    (k' = k ∧ w = v) ∨ (k' ≠ k ∧ List.lookup k' m = some w) := by
  by_cases hk : k' = k
  · subst hk
    rw [lookup_setKey_self] at h
    exact Or.inl ⟨rfl, (Option.some.inj h).symm⟩
  · rw [lookup_setKey_ne m k k' v hk] at h
    exact Or.inr ⟨hk, h⟩

theorem stateInv_init : StateInv initUI := by
  refine ⟨?_, ?_, ?_⟩
  · intro hpos
    simp [initUI] at hpos
  · intro f w hfw
    simp [initUI, List.lookup] at hfw
  · intro k v hkv
    simp [initUI, List.lookup] at hkv

theorem qAt_nonneg {i : Int} {q : Question} (h : qAt i = some q) : 0 ≤ i := by
  unfold qAt at h
  split at h
  · cases h
  · omega

theorem qAt_mem {i : Int} {q : Question} (h : qAt i = some q) :
    q ∈ QUESTIONS := by
  unfold qAt at h
  split at h
  · cases h
  · exact List.getElem?_mem h

theorem qAt_zero :
    qAt 0 = some { id := "budget", qtype := .hard, inputType := .num,
                   required := true } := by
  decide

theorem idx_pos_of_ne_budget {i : Int} {q : Question} (h : qAt i = some q)
    (hne : q.id ≠ "budget") : 0 < i := by
  have h0 := qAt_nonneg h
  rcases eq_or_lt_of_le h0 with heq | hlt
  · exfalso
    rw [← heq, qAt_zero] at h
    have := Option.some.inj h
    rw [← this] at hne
    exact hne rfl
  · exact hlt

theorem q_budget_shape : ∀ q ∈ QUESTIONS, q.id = "budget" →
    q.qtype = QType.hard ∧ q.inputType = InputType.num := by
  decide

theorem q_os_shape : ∀ q ∈ QUESTIONS, q.id = "os" →
    q.inputType = InputType.select ∧
    q.options = ["any", "Windows", "DOS", "Ubuntu"] := by
  decide

theorem q_hard_ids : ∀ q ∈ QUESTIONS, q.qtype = QType.hard →
    q.id = "budget" ∨ q.id = "os" ∨ q.id = "min_ram" ∨
    q.id = "min_storage" := by
  decide

theorem q_required_is_budget : ∀ q ∈ QUESTIONS, q.required = true →
    q.id = "budget" := by
  decide

theorem q_budget_required : ∀ q ∈ QUESTIONS, q.id = "budget" →
    q.required = true := by
  decide

theorem answerOk_not_null {q : Question} {a : Ans}
    (h : answerOk q a = true) : a ≠ Ans.null := by
  cases a <;> simp [answerOk] at h ⊢

theorem answerOk_budget {q : Question} {a : Ans} (h : answerOk q a = true)
    (hid : q.id = "budget") : ∃ x, a = Ans.num x ∧ 0 < x := by
  cases a with
  | null => simp [answerOk] at h
  | str t => simp [answerOk, hid] at h
  | num x =>
      simp [answerOk, hid] at h
      exact ⟨x, rfl, h⟩

theorem readable_select {q : Question} {a : Ans}
    (hr : readableAnswer q a = true) (hi : q.inputType = InputType.select)
    (hn : a ≠ Ans.null) : ∃ t, a = Ans.str t ∧ t ∈ q.options := by
  cases a with
  | null => exact absurd rfl hn
  | num x => simp [readableAnswer, hi] at hr
  | str t =>
      refine ⟨t, rfl, ?_⟩
      simpa [readableAnswer, hi] using hr

theorem saveAnswer_soft_hard (q : Question) (a : Ans) (s : UIState)
    (hqt : q.qtype = QType.soft) : (saveAnswer q a s).hard = s.hard := by
  cases a with
  | null => simp [saveAnswer]
  | num x => simp [saveAnswer, hqt]
  | str t =>
      simp only [saveAnswer, hqt]
      cases importanceMap t <;> simp

theorem saveAnswer_hard_eq (q : Question) (a : Ans) (s : UIState)
    (hqt : q.qtype = QType.hard) (ha : a ≠ Ans.null) :
    saveAnswer q a s = { s with hard := setKey s.hard q.id (hardVal q a) } := by
  cases a with
  | null => exact absurd rfl ha
  | num x => simp [saveAnswer, hqt]
  | str t => simp [saveAnswer, hqt]

theorem saveAnswer_hard_weights (q : Question) (a : Ans) (s : UIState)
    (hqt : q.qtype = QType.hard) : (saveAnswer q a s).weights = s.weights := by
  cases a with
  | null => simp [saveAnswer]
  | num x => simp [saveAnswer, hqt]
  | str t => simp [saveAnswer, hqt]

theorem saveAnswer_soft_weights (q : Question) (a : Ans) (s : UIState)
    (hqt : q.qtype = QType.soft) :
    (saveAnswer q a s).weights = s.weights ∨
    ∃ t w, a = Ans.str t ∧ importanceMap t = some w ∧
      (saveAnswer q a s).weights = setKey s.weights q.field w := by
  cases a with
  | null => exact Or.inl (by simp [saveAnswer])
  | num x => exact Or.inl (by simp [saveAnswer, hqt])
  | str t =>
      cases him : importanceMap t with
      | none => exact Or.inl (by simp [saveAnswer, hqt, him])
      | some w =>
          exact Or.inr ⟨t, w, rfl, him, by simp [saveAnswer, hqt, him]⟩

/-- Conformance of the stored entry itself: whatever hard question is being
answered with a readable, validated answer, the stored `(id, value)` pair
conforms to the request contract. -/
theorem hardVal_conforms {q : Question} {a : Ans} (hmem : q ∈ QUESTIONS)
    (hqt : q.qtype = QType.hard) (hr : readableAnswer q a = true)
    (ha : answerOk q a = true) :
    ((q.id = "budget" ∨ q.id = "min_ram" ∨ q.id = "min_storage") →
       ∃ x, hardVal q a = Value.num x) ∧
    (q.id = "os" → hardVal q a = Value.str "any" ∨
       hardVal q a = Value.str "Windows" ∨ hardVal q a = Value.str "DOS" ∨
       hardVal q a = Value.str "Ubuntu") := by
  rcases q_hard_ids q hmem hqt with hid | hid | hid | hid
  · obtain ⟨-, hqi⟩ := q_budget_shape q hmem hid
    refine ⟨fun _ => ⟨jsNumber a, ?_⟩, fun hos => ?_⟩
    · simp [hardVal, hqi]
    · rw [hid] at hos
      simp at hos
  · obtain ⟨hqi, hopts⟩ := q_os_shape q hmem hid
    obtain ⟨t, rfl, ht⟩ := readable_select hr hqi (answerOk_not_null ha)
    rw [hopts] at ht
    refine ⟨fun hk => ?_, fun _ => ?_⟩
    · rw [hid] at hk
      simp at hk
    · have hv : hardVal q (Ans.str t) = Value.str t := by
        simp [hardVal, hqi, numericHardFields, hid, valueOfAns]
      rw [hv]
      simp at ht
      rcases ht with rfl | rfl | rfl | rfl
      · exact Or.inl rfl
      · exact Or.inr (Or.inl rfl)
      · exact Or.inr (Or.inr (Or.inl rfl))
      · exact Or.inr (Or.inr (Or.inr rfl))
  · refine ⟨fun _ => ⟨jsNumber a, ?_⟩, fun hos => ?_⟩
    · simp [hardVal, numericHardFields, hid]
    · rw [hid] at hos
      simp at hos
  · refine ⟨fun _ => ⟨jsNumber a, ?_⟩, fun hos => ?_⟩
    · simp [hardVal, numericHardFields, hid]
    · rw [hid] at hos
      simp at hos

/-- The invariant survives a validated Continue save, whatever the index of
the successor state is. -/
theorem stateInv_afterSave (s : UIState) (q : Question) (a : Ans) (i : Int)
    (hmem : q ∈ QUESTIONS) (hr : readableAnswer q a = true)
    (ha : answerOk q a = true) (hinv : StateInv s)
    (hpos : q.id ≠ "budget" → 0 < s.idx) :
    StateInv { unmark (saveAnswer q a s) q.id with idx := i } := by
  obtain ⟨hb, hw, hh⟩ := hinv
  have hnull : a ≠ Ans.null := answerOk_not_null ha
  have hweights : ∀ f w,
      List.lookup f (saveAnswer q a s).weights = some w →
      w = 1 ∨ w = 2 ∨ w = 3 := by
    intro f w hfw
    cases hqt : q.qtype with
    | hard =>
        rw [saveAnswer_hard_weights q a s hqt] at hfw
        exact hw f w hfw
    | soft =>
        rcases saveAnswer_soft_weights q a s hqt with heq | ⟨t, w', rfl, him, heq⟩
        · rw [heq] at hfw
          exact hw f w hfw
        · rw [heq] at hfw
          rcases lookup_setKey_elim _ _ _ _ _ hfw with ⟨-, rfl⟩ | ⟨-, hold⟩
          · exact importanceMap_range t w him
          · exact hw f w hold
  by_cases hid : q.id = "budget"
  · obtain ⟨hqt, hqi⟩ := q_budget_shape q hmem hid
    obtain ⟨x, rfl, hx⟩ := answerOk_budget ha hid
    have hsave := saveAnswer_hard_eq q (Ans.num x) s hqt hnull
    have hvx : hardVal q (Ans.num x) = Value.num x := by
      simp [hardVal, hqi, jsNumber]
    refine ⟨?_, ?_, ?_⟩
    · intro _
      refine ⟨x, ?_, hx⟩
      show List.lookup "budget" (saveAnswer q (Ans.num x) s).hard =
        some (Value.num x)
      rw [hsave]
      simp only
      rw [← hid, hvx]
      exact lookup_setKey_self s.hard q.id (Value.num x)
    · exact hweights
    · intro k v hkv
      replace hkv : List.lookup k (saveAnswer q (Ans.num x) s).hard = some v :=
        hkv
      rw [hsave] at hkv
      simp only at hkv
      rcases lookup_setKey_elim _ _ _ _ _ hkv with ⟨rfl, rfl⟩ | ⟨-, hold⟩
      · rw [hvx]
        refine ⟨fun _ => ⟨x, rfl⟩, fun hos => ?_⟩
        rw [hid] at hos
        simp at hos
      · exact hh k v hold
  · have hsidx := hpos hid
    obtain ⟨xb, hxb, hxbpos⟩ := hb hsidx
    refine ⟨?_, ?_, ?_⟩
    · intro _
      refine ⟨xb, ?_, hxbpos⟩
      show List.lookup "budget" (saveAnswer q a s).hard = some (Value.num xb)
      cases hqt : q.qtype with
      | soft => rw [saveAnswer_soft_hard q a s hqt]; exact hxb
      | hard =>
          rw [saveAnswer_hard_eq q a s hqt hnull]
          simp only
          rw [lookup_setKey_ne s.hard q.id "budget" _ (fun h => hid h.symm)]
          exact hxb
    · exact hweights
    · intro k v hkv
      replace hkv : List.lookup k (saveAnswer q a s).hard = some v := hkv
      cases hqt : q.qtype with
      | soft =>
          rw [saveAnswer_soft_hard q a s hqt] at hkv
          exact hh k v hkv
      | hard =>
          rw [saveAnswer_hard_eq q a s hqt hnull] at hkv
          simp only at hkv
          rcases lookup_setKey_elim _ _ _ _ _ hkv with ⟨rfl, rfl⟩ | ⟨-, hold⟩
          · exact hardVal_conforms hmem hqt hr ha
          · exact hh k v hold

/-- The invariant is preserved by every button click. -/
theorem stateInv_step (s : UIState) (e : UIEvent) (h : StateInv s) :
    StateInv (uiStep s e).1 := by
  obtain ⟨hb, hw, hh⟩ := h
  cases e with
  | restartClick => exact stateInv_init
  | backClick =>
      refine ⟨?_, hw, hh⟩
      intro hpos
      simp only [uiStep] at hpos
      exact hb (by split at hpos <;> omega)
  | skipClick =>
      cases hq : qAt s.idx with
      | none =>
          simp only [uiStep, hq]
          exact ⟨hb, hw, hh⟩
      | some q =>
          simp only [uiStep, hq]
          split
      -- the Skip button is hidden on the required (budget) question
          · exact ⟨hb, hw, hh⟩
          · next hreq =>
              have hne : q.id ≠ "budget" := fun hid =>
                hreq (q_budget_required q (qAt_mem hq) hid)
              have hpos := idx_pos_of_ne_budget hq hne
              split
              · exact ⟨fun _ => hb hpos, hw, hh⟩
              · exact ⟨fun _ => hb hpos, hw, hh⟩
  | continueClick a =>
      cases hq : qAt s.idx with
      | none =>
          simp only [uiStep, hq]
          exact ⟨hb, hw, hh⟩
      | some q =>
          simp only [uiStep, hq]
          split
          · next hg =>
              obtain ⟨hr, ha⟩ := Bool.and_eq_true_iff.mp hg
              have hmem := qAt_mem hq
              have hpos : q.id ≠ "budget" → 0 < s.idx :=
                fun hne => idx_pos_of_ne_budget hq hne
              split
              · exact stateInv_afterSave s q a
                  (unmark (saveAnswer q a s) q.id).idx hmem hr ha
                  ⟨hb, hw, hh⟩ hpos
              · exact stateInv_afterSave s q a (s.idx + 1) hmem hr ha
                  ⟨hb, hw, hh⟩ hpos
          · exact ⟨hb, hw, hh⟩

theorem saveAnswer_idx (q : Question) (a : Ans) (s : UIState) :
    (saveAnswer q a s).idx = s.idx := by
  cases a with
  | null => simp [saveAnswer]
  | num x => cases hqt : q.qtype <;> simp [saveAnswer, hqt]
  | str t =>
      cases hqt : q.qtype with
      | hard => simp [saveAnswer, hqt]
      | soft =>
          simp only [saveAnswer, hqt]
          cases importanceMap t <;> simp

theorem stateInv_foldl (evs : List UIEvent) (s : UIState) (h : StateInv s) :
    StateInv (evs.foldl (fun s e => (uiStep s e).1) s) := by
  induction evs generalizing s with
  | nil => exact h
  | cons e evs ih => exact ih (uiStep s e).1 (stateInv_step s e h)

theorem stateInv_run (evs : List UIEvent) : StateInv (runUI evs) :=
  stateInv_foldl evs initUI stateInv_init

theorem questions_length : (QUESTIONS.length : Int) = 9 := by decide

/-- A click that submits a payload submits exactly the stepped state's
answers, and that state is past the first question. -/
theorem uiStep_emit {s : UIState} {e : UIEvent} {p : Payload}
    (h : (uiStep s e).2 = some p) :
    p = mkPayload (uiStep s e).1 ∧ 0 < (uiStep s e).1.idx := by
  cases e with
  | backClick => simp [uiStep] at h
  | restartClick => simp [uiStep] at h
  | skipClick =>
      cases hq : qAt s.idx with
      | none => simp [uiStep, hq] at h
      | some q =>
          simp only [uiStep, hq] at h ⊢
          by_cases hreq : q.required = true
          · rw [if_pos hreq] at h
            cases h
          · rw [if_neg hreq] at h ⊢
            by_cases hlen : s.idx ≥ (QUESTIONS.length : Int) - 1
            · rw [if_pos hlen] at h ⊢
              have hp := Option.some.inj h
              have h9 := questions_length
              exact ⟨hp.symm, by
                show 0 < (mark s q.id).idx
                have : (mark s q.id).idx = s.idx := rfl
                omega⟩
            · rw [if_neg hlen] at h
              cases h
  | continueClick a =>
      cases hq : qAt s.idx with
      | none => simp [uiStep, hq] at h
      | some q =>
          simp only [uiStep, hq] at h ⊢
          by_cases hg : (readableAnswer q a && answerOk q a) = true
          · rw [if_pos hg] at h ⊢
            by_cases hlen : s.idx ≥ (QUESTIONS.length : Int) - 1
            · rw [if_pos hlen] at h ⊢
              have hp := Option.some.inj h
              have h9 := questions_length
              refine ⟨hp.symm, ?_⟩
              show 0 < (unmark (saveAnswer q a s) q.id).idx
              have hidx : (unmark (saveAnswer q a s) q.id).idx = s.idx :=
                saveAnswer_idx q a s
              omega
            · rw [if_neg hlen] at h
              cases h
          · rw [if_neg hg] at h
            cases h

theorem mem_replaceAllChars {s : List Char} {c : Char} {r : List Char}
    {d : Char} (h : d ∈ replaceAllChars s c r) :
    d ∈ r ∨ (d ∈ s ∧ d ≠ c) := by
  induction s with
  | nil => cases h
  | cons x xs ih =>
      by_cases hx : x = c
      · simp only [replaceAllChars, if_pos hx, List.mem_append] at h
        rcases h with h | h
        · exact Or.inl h
        · rcases ih h with h' | ⟨h1, h2⟩
          · exact Or.inl h'
          · exact Or.inr ⟨List.mem_cons_of_mem x h1, h2⟩
      · simp only [replaceAllChars, if_neg hx, List.mem_cons] at h
        rcases h with rfl | h
        · exact Or.inr ⟨List.mem_cons_self d xs, hx⟩
        · rcases ih h with h' | ⟨h1, h2⟩
          · exact Or.inl h'
          · exact Or.inr ⟨List.mem_cons_of_mem x h1, h2⟩

theorem escChain_safe {s : List Char} {d : Char} (h : d ∈ escChain s) :
    d ≠ '<' ∧ d ≠ '>' ∧ d ≠ Char.ofNat 34 ∧ d ≠ Char.ofNat 39 := by
  have hent1 : ∀ c ∈ "&#39;".data, c ≠ '<' ∧ c ≠ '>' ∧ c ≠ Char.ofNat 34 ∧
      c ≠ Char.ofNat 39 := by decide
  have hent2 : ∀ c ∈ "&quot;".data, c ≠ '<' ∧ c ≠ '>' ∧ c ≠ Char.ofNat 34 ∧
      c ≠ Char.ofNat 39 := by decide
  have hent3 : ∀ c ∈ "&gt;".data, c ≠ '<' ∧ c ≠ '>' ∧ c ≠ Char.ofNat 34 ∧
      c ≠ Char.ofNat 39 := by decide
  have hent4 : ∀ c ∈ "&lt;".data, c ≠ '<' ∧ c ≠ '>' ∧ c ≠ Char.ofNat 34 ∧
      c ≠ Char.ofNat 39 := by decide
  have hent5 : ∀ c ∈ "&amp;".data, c ≠ '<' ∧ c ≠ '>' ∧ c ≠ Char.ofNat 34 ∧
      c ≠ Char.ofNat 39 := by decide
  unfold escChain at h
  rcases mem_replaceAllChars h with h1 | ⟨h1, hq39⟩
  · exact hent1 d h1
  rcases mem_replaceAllChars h1 with h2 | ⟨h2, hq34⟩
  · exact hent2 d h2
  rcases mem_replaceAllChars h2 with h3 | ⟨h3, hgt⟩
  · exact hent3 d h3
  rcases mem_replaceAllChars h3 with h4 | ⟨h4, hlt⟩
  · exact hent4 d h4
  rcases mem_replaceAllChars h4 with h5 | ⟨h5, hamp⟩
  · exact hent5 d h5
  exact ⟨hlt, hgt, hq34, hq39⟩

/-- `_onSkip` never touches the weights map. -/
theorem skip_preserves_weights (s : UIState) :
    ((uiStep s UIEvent.skipClick).1).weights = s.weights := by
  cases hq : qAt s.idx with
  | none => simp [uiStep, hq]
  | some q =>
      simp only [uiStep, hq]
      split
      · rfl
      · split <;> rfl

/-- A weight present after a click either was just stored by that click
(which then `savesField` recognizes) or was already present before it. -/
theorem lookup_weights_step (s : UIState) (e : UIEvent) (f : String) (w : Nat)
    (h : List.lookup f ((uiStep s e).1).weights = some w) :
    savesField s e f = true ∨ List.lookup f s.weights = some w := by
  cases e with
  | backClick => exact Or.inr h
  | restartClick => simp [uiStep, initUI, List.lookup] at h
  | skipClick =>
      rw [skip_preserves_weights] at h
      exact Or.inr h
  | continueClick a =>
      cases hq : qAt s.idx with
      | none =>
          simp only [uiStep, hq] at h
          exact Or.inr h
      | some q =>
          simp only [uiStep, hq] at h
          split at h
          · next hg =>
              obtain ⟨hr, ha⟩ := Bool.and_eq_true_iff.mp hg
              have hw : List.lookup f (saveAnswer q a s).weights = some w := by
                split at h
                · exact h
                · exact h
              cases hqt : q.qtype with
              | hard =>
                  rw [saveAnswer_hard_weights q a s hqt] at hw
                  exact Or.inr hw
              | soft =>
                  rcases saveAnswer_soft_weights q a s hqt with
                    heq | ⟨t, w', hat, him, heq⟩
                  · rw [heq] at hw
                    exact Or.inr hw
                  · rw [heq] at hw
                    rcases lookup_setKey_elim _ _ _ _ _ hw with
                      ⟨rfl, rfl⟩ | ⟨-, hold⟩
                    · subst hat
                      refine Or.inl ?_
                      simp [savesField, hq, hr, ha, hqt, him]
                    · exact Or.inr hold
          · exact Or.inr h

/-- A field no click of the remaining run answers stays absent from the
weights map. -/
theorem notAnswered_weights_none (f : String) (evs : List UIEvent)
    (s : UIState) (hna : everSaves f evs s = false)
    (hs : List.lookup f s.weights = none) :
    List.lookup f ((evs.foldl (fun s e => (uiStep s e).1) s)).weights =
      none := by
  induction evs generalizing s with
  | nil => exact hs
  | cons e evs ih =>
      rw [everSaves, Bool.or_eq_false_iff] at hna
      obtain ⟨h1, h2⟩ := hna
      refine ih (uiStep s e).1 h2 ?_
      cases hw : List.lookup f ((uiStep s e).1).weights with
      | none => rfl
      | some w =>
          rcases lookup_weights_step s e f w hw with hsv | hold
          · rw [hsv] at h1
            cases h1
          · rw [hs] at hold
            cases hold

/-- A field no Continue click of the run ever answered is absent from the
final weights map. -/
theorem fieldAnswered_false_absent (f : String) (evs : List UIEvent)
    (h : fieldAnswered f evs = false) :
    List.lookup f (runUI evs).weights = none :=
  notAnswered_weights_none f evs initUI h rfl

theorem everSaves_append (f : String) (evs : List UIEvent) (e : UIEvent)
    (s : UIState) :
    everSaves f (evs ++ [e]) s =
      (everSaves f evs s ||
       savesField (evs.foldl (fun s e => (uiStep s e).1) s) e f) := by
  induction evs generalizing s with
  | nil => simp [everSaves]
  | cons e' evs ih =>
      simp [everSaves, ih, Bool.or_assoc]

theorem fieldAnswered_append (f : String) (evs : List UIEvent) (e : UIEvent) :
    fieldAnswered f (evs ++ [e]) =
      (fieldAnswered f evs || savesField (runUI evs) e f) :=
  everSaves_append f evs e initUI

theorem samplePrefs_valid : ValidPrefs samplePrefs := by
  intro f w h
  cases f <;> simp [SoftPreferences.get, samplePrefs] at h <;> omega

/-! ## Claims -/

/-- C1: Constraint soundness — for every catalog, every hard-constraints
object and every record the filter returns, the price is within budget, RAM
and total storage reach the minima, and the OS constraint is `"any"` or
equals the record's operating system. -/
theorem claim_C1 (catalog : List LaptopRecord) (hc : HardConstraints)
    (r : LaptopRecord) (hr : r ∈ filterCatalog catalog hc) :
    r.price ≤ hc.budget ∧ hc.minRam ≤ r.ramGB ∧
    hc.minStorage ≤ r.totalStorageGB ∧
    (hc.os = "any" ∨ hc.os = r.os) := by
  obtain ⟨hmem, hsat⟩ := List.mem_filter.mp hr
  simp only [satisfiesConstraints, Bool.and_eq_true, Bool.or_eq_true,
    beq_iff_eq, decide_eq_true_eq] at hsat
  obtain ⟨⟨⟨hp, hos⟩, hram⟩, hstor⟩ := hsat
  refine ⟨hp, ?_, ?_, ?_⟩
  · rcases hram with h0 | h
    · rw [h0]
      exact Nat.zero_le _
    · exact h
  · rcases hstor with h0 | h
    · rw [h0]
      exact Nat.zero_le _
    · exact h
  · rcases hos with h | h
    · exact Or.inl h
    · exact Or.inr h.symm

/-- Witness for C1 at a concrete catalog, constraint set and record. -/
theorem claim_C1_witness :
    sampleRecord ∈ filterCatalog [sampleRecord] sampleHC ∧
    (sampleRecord.price ≤ sampleHC.budget ∧
     sampleHC.minRam ≤ sampleRecord.ramGB ∧
     sampleHC.minStorage ≤ sampleRecord.totalStorageGB ∧
     (sampleHC.os = "any" ∨ sampleHC.os = sampleRecord.os)) :=
  ⟨by decide, claim_C1 [sampleRecord] sampleHC sampleRecord (by decide)⟩

/-- C2: Score bounds — for every record of every filtered subset and every
preference mapping whose present weights come from `{1, 2, 3}` (skipped
fields defaulting to 1), the composite score lies in `[0, 100]` and the
weight denominator is nonzero. -/
theorem claim_C2 (subset : List LaptopRecord) (p : SoftPreferences)
    (r : LaptopRecord) (hr : r ∈ subset) (hp : ValidPrefs p) :
    0 ≤ compositeScore subset p r ∧ compositeScore subset p r ≤ 100 ∧
    totalWeight p ≠ 0 :=
  ⟨(compositeScore_bounds subset p r hr hp).1,
   (compositeScore_bounds subset p r hr hp).2,
   (totalWeight_pos hp).ne'⟩

/-- Witness for C2 at a concrete subset, preference mapping and record. -/
theorem claim_C2_witness :
    0 ≤ compositeScore [sampleRecord] samplePrefs sampleRecord ∧
    compositeScore [sampleRecord] samplePrefs sampleRecord ≤ 100 ∧
    totalWeight samplePrefs ≠ 0 :=
  claim_C2 [sampleRecord] samplePrefs sampleRecord (by simp)
    samplePrefs_valid

/-- C3: every payload a questionnaire run can submit carries a `budget` key
holding a number strictly greater than zero — the Continue handler rejects
empty, non-numeric and non-positive budget answers without advancing, so no
run reaches submission without a validated budget. -/
theorem claim_C3 (evs : List UIEvent) (e : UIEvent) (p : Payload)
    (h : (uiStep (runUI evs) e).2 = some p) :
    ∃ x, List.lookup "budget" p.hardConstraints = some (Value.num x) ∧
      0 < x := by
  obtain ⟨hp, hpos⟩ := uiStep_emit h
  obtain ⟨hb, -, -⟩ := stateInv_step (runUI evs) e (stateInv_run evs)
  obtain ⟨x, hx, hxp⟩ := hb hpos
  refine ⟨x, ?_, hxp⟩
  rw [hp]
  exact hx

/-- Witness for C3: the complete sample run submits, and its payload's
budget is the positive 50000. -/
theorem claim_C3_witness :
    (uiStep (runUI evsFullRun)
      (UIEvent.continueClick (Ans.str "Low"))).2 = some payloadFullRun ∧
    ∃ x, List.lookup "budget" payloadFullRun.hardConstraints =
      some (Value.num x) ∧ 0 < x :=
  ⟨by decide,
   claim_C3 evsFullRun (UIEvent.continueClick (Ans.str "Low")) payloadFullRun
     (by decide)⟩

/-- C4: every weight ever stored in the UI weights map — and hence every
weight in a submitted `soft_preferences` payload — is one of 1, 2, 3, the
values of the closed `IMPORTANCE_MAP` lookup table. -/
theorem claim_C4 (evs : List UIEvent) :
    (∀ f w, List.lookup f (runUI evs).weights = some w →
       w = 1 ∨ w = 2 ∨ w = 3) ∧
    (∀ e p f w, (uiStep (runUI evs) e).2 = some p →
       List.lookup f p.softPreferences = some w →
       w = 1 ∨ w = 2 ∨ w = 3) := by
  refine ⟨(stateInv_run evs).2.1, ?_⟩
  intro e p f w hemit hfw
  obtain ⟨hp, -⟩ := uiStep_emit hemit
  obtain ⟨-, hw, -⟩ := stateInv_step (runUI evs) e (stateInv_run evs)
  rw [hp] at hfw
  exact hw f w hfw

/-- Witness for C4: in the sample run the stored performance weight is 3,
and 3 is in the allowed range. -/
theorem claim_C4_witness :
    List.lookup "cpu_performance" (runUI evsFullRun).weights = some 3 ∧
    ((3 : Nat) = 1 ∨ (3 : Nat) = 2 ∨ (3 : Nat) = 3) :=
  ⟨by decide, (claim_C4 evsFullRun).1 "cpu_performance" 3 (by decide)⟩

/-- C5: every submitted `hard_constraints` object conforms to the request
contract — budget, `min_ram` and `min_storage`, when present, are stored as
numbers, and `os`, when present, is one of the four fixed select options. -/
theorem claim_C5 (evs : List UIEvent) (e : UIEvent) (p : Payload)
    (h : (uiStep (runUI evs) e).2 = some p) :
    (∀ k v, List.lookup k p.hardConstraints = some v →
       (k = "budget" ∨ k = "min_ram" ∨ k = "min_storage") →
       ∃ x, v = Value.num x) ∧
    (∀ v, List.lookup "os" p.hardConstraints = some v →
       v = Value.str "any" ∨ v = Value.str "Windows" ∨
       v = Value.str "DOS" ∨ v = Value.str "Ubuntu") := by
  obtain ⟨hp, -⟩ := uiStep_emit h
  obtain ⟨-, -, hh⟩ := stateInv_step (runUI evs) e (stateInv_run evs)
  constructor
  · intro k v hkv hk
    rw [hp] at hkv
    exact (hh k v hkv).1 hk
  · intro v hv
    rw [hp] at hv
    exact (hh "os" v hv).2 rfl

/-- Witness for C5 on the Ubuntu run: numeric minima and a contract OS. -/
theorem claim_C5_witness :
    (uiStep (runUI evsRunUbuntu)
      (UIEvent.continueClick (Ans.str "Low"))).2 = some payloadUbuntu ∧
    List.lookup "min_ram" payloadUbuntu.hardConstraints =
      some (Value.num 8) ∧
    (∃ x, Value.num 8 = Value.num x) ∧
    (Value.str "Ubuntu" = Value.str "any" ∨
     Value.str "Ubuntu" = Value.str "Windows" ∨
     Value.str "Ubuntu" = Value.str "DOS" ∨
     Value.str "Ubuntu" = Value.str "Ubuntu") :=
  ⟨by decide, by decide,
   (claim_C5 evsRunUbuntu (UIEvent.continueClick (Ans.str "Low"))
      payloadUbuntu (by decide)).1 "min_ram" (Value.num 8) (by decide)
      (by simp),
   (claim_C5 evsRunUbuntu (UIEvent.continueClick (Ans.str "Low"))
      payloadUbuntu (by decide)).2 (Value.str "Ubuntu") (by decide)⟩

/-- C6 counterexample: the user answers the performance question High, goes
Back, Skips it, and skips to the end; the submitting Skip's payload still
carries `cpu_performance ↦ 3` although `weight_performance` is recorded as
skipped (and is never answered after the skip). -/
theorem claim_C6_counterexample :
    (uiStep (runUI evsBackSkip) UIEvent.skipClick).2 = some payloadBackSkip ∧
    "weight_performance" ∈ (runUI evsBackSkip).skipped ∧
    List.lookup "cpu_performance" payloadBackSkip.softPreferences =
      some 3 := by
  refine ⟨by decide, by decide, by decide⟩

/-- C6 (amended): the Skip handler records the skip and advances without
modifying the weights map — it does not remove a weight saved by an earlier
answer. A field is absent from the weights map, and from any payload the
next click submits, whenever no Continue click of the run answered that
field's question; and no payload ever carries a weight of 0. -/
theorem claim_C6 (evs : List UIEvent) :
    ((uiStep (runUI evs) UIEvent.skipClick).1).weights =
      (runUI evs).weights ∧
    (∀ f, fieldAnswered f evs = false →
       List.lookup f (runUI evs).weights = none) ∧
    (∀ e p f, (uiStep (runUI evs) e).2 = some p →
       fieldAnswered f (evs ++ [e]) = false →
       List.lookup f p.softPreferences = none) ∧
    (∀ e p f w, (uiStep (runUI evs) e).2 = some p →
       List.lookup f p.softPreferences = some w → w ≠ 0) := by
  refine ⟨skip_preserves_weights (runUI evs),
    fun f => fieldAnswered_false_absent f evs, ?_, ?_⟩
  · intro e p f hemit hna
    obtain ⟨hp, -⟩ := uiStep_emit hemit
    rw [fieldAnswered_append, Bool.or_eq_false_iff] at hna
    obtain ⟨h1, h2⟩ := hna
    rw [hp]
    show List.lookup f ((uiStep (runUI evs) e).1).weights = none
    cases hw : List.lookup f ((uiStep (runUI evs) e).1).weights with
    | none => rfl
    | some w =>
        rcases lookup_weights_step (runUI evs) e f w hw with hsv | hold
        · rw [hsv] at h2
          cases h2
        · rw [fieldAnswered_false_absent f evs h1] at hold
          cases hold
  · intro e p f w hemit hfw
    obtain ⟨hp, -⟩ := uiStep_emit hemit
    obtain ⟨-, hw, -⟩ := stateInv_step (runUI evs) e (stateInv_run evs)
    rw [hp] at hfw
    rcases hw f w hfw with rfl | rfl | rfl <;> omega

/-- Witness for C6 on the back-then-skip run: Skip leaves the weights map
untouched, the never-answered RAM field is absent from the submitted
payload, and the submitted weight 3 is not 0. -/
theorem claim_C6_witness :
    ((uiStep (runUI evsBackSkip) UIEvent.skipClick).1).weights =
      (runUI evsBackSkip).weights ∧
    List.lookup "ram(GB)" payloadBackSkip.softPreferences = none ∧
    (3 : Nat) ≠ 0 :=
  ⟨(claim_C6 evsBackSkip).1,
   (claim_C6 evsBackSkip).2.2.1 UIEvent.skipClick payloadBackSkip "ram(GB)"
     (by decide) (by decide),
   (claim_C6 evsBackSkip).2.2.2 UIEvent.skipClick payloadBackSkip
     "cpu_performance" 3 (by decide) (by decide)⟩

/-- C7: an empty or missing `results` array is handled as a success — the
list is replaced by the no-results card advising the user to relax the
constraints, and the fatal-error path is never taken for an ok response. -/
theorem claim_C7 :
    renderResults (some []) =
      RenderedList.noResultsMessage "No laptops matched your criteria"
        "Your hard constraints may be too strict. Try relaxing your budget, minimum RAM, or storage requirements." ∧
    handleResponse (FetchResult.ok none) =
      SubmitOutcome.rendered (renderResults (some [])) ∧
    handleResponse (FetchResult.ok (some [])) =
      SubmitOutcome.rendered (renderResults (some [])) ∧
    (∀ rs, (handleResponse (FetchResult.ok rs)).isFatal = false) := by
  refine ⟨rfl, rfl, rfl, ?_⟩
  intro rs
  cases rs with
  | none => rfl
  | some l => cases l <;> rfl

/-- C9: `_esc` maps `null`/`undefined` to the empty string, and its output
never contains a literal `<`, `>`, double quote or single quote. -/
theorem claim_C9 :
    jsEsc Option.none = "" ∧
    ∀ (s : String) (c : Char), c ∈ (jsEsc (some s)).data →
      c ≠ '<' ∧ c ≠ '>' ∧ c ≠ Char.ofNat 34 ∧ c ≠ Char.ofNat 39 :=
  ⟨rfl, fun _ _ h => escChain_safe h⟩

/-- Witness for C9 on the string `a<b`. -/
theorem claim_C9_witness :
    'a' ∈ (jsEsc (some "a<b")).data ∧
    ('a' ≠ '<' ∧ 'a' ≠ '>' ∧ 'a' ≠ Char.ofNat 34 ∧ 'a' ≠ Char.ofNat 39) :=
  ⟨by decide, claim_C9.2 "a<b" 'a' (by decide)⟩

/-- C10: the questionnaire index never goes negative — it starts at 0,
`decrementIndex` refuses to go below 0, and `resetState` restores 0, so
after any sequence of module calls the current index is at least 0. -/
theorem claim_C10 (ops : List StateOp) :
    0 ≤ (runOps ops).st.currentQuestionIndex :=
  idx_nonneg_foldl ops initWorld (le_refl 0)

end LareC

